import Mathlib

/-!
Verification of the SAML service-provider assertion-ingestion pipeline
(`SAMLResponse` in the TypeScript source) and of the `SAMLRequest`
redirect-URL builder, against the natural-language specification.

The XML DOM layer (`@xmldom/xmldom`) is embedded shallowly: a document is a
tree of element and text nodes; `getElementsByTagName` is pre-order
descendant search by fully qualified tag name (the library matches on the
serialized `tagName`, so "saml2:Conditions" and "Conditions" are distinct
tags); `textContent` concatenates all descendant text; `getAttribute`
returns the attribute value or nothing.  External capabilities that the
source consumes (the XML-Enc `decrypt` callback, `Date` string parsing,
`URLSearchParams.get` on a form body, Base64 decoding, and the string→DOM
parser itself) are parameters of the embedded functions, exactly at the
call boundaries the source uses them.
-/

namespace SamlSP

/-- An XML DOM node: an element with a qualified tag name, attribute list and
children, or a text node. -/
inductive XMLNode where
  | elem (tag : String) (attrs : List (String × String)) (children : List XMLNode) : XMLNode
  | text (s : String) : XMLNode
deriving Repr

/-- Attribute list of a node (empty for text nodes). -/
def topAttrs : XMLNode → List (String × String)
  | .elem _ a _ => a
  | .text _ => []

/-- DOM getAttribute on a plain attribute list: value of the first binding of
the name, or nothing when absent. -/
def getAttrL (attrs : List (String × String)) (name : String) : Option String :=
  (attrs.find? (fun p => p.1 = name)).map Prod.snd

/-- DOM `getAttribute`. -/
def getAttr (n : XMLNode) (name : String) : Option String :=
  getAttrL (topAttrs n) name

/-- JavaScript truthiness on a nullable string: `null` and `""` are falsy. -/
def truthy : Option String → Option String
  | none => none
  | some s => if s = "" then none else some s

mutual
/-- All elements of the subtree rooted at a node (the node itself included)
whose qualified tag name equals `t`, in document (pre)order.  This is
document-level `getElementsByTagName` applied to the document whose root
element is the node. -/
def elemsByTag (t : String) : XMLNode → List XMLNode
  | .text _ => []
  | .elem tag a cs =>
      (if tag = t then [XMLNode.elem tag a cs] else []) ++ elemsByTagList t cs

/-- Document-order concatenation of `elemsByTag` over a forest of siblings. -/
def elemsByTagList (t : String) : List XMLNode → List XMLNode
  | [] => []
  | c :: cs => elemsByTag t c ++ elemsByTagList t cs
end

/-- Element-level `getElementsByTagName`: all matching descendants of the
node, the node itself excluded. -/
def descElemsByTag (t : String) : XMLNode → List XMLNode
  | .text _ => []
  | .elem _ _ cs => elemsByTagList t cs

mutual
/-- DOM `textContent`: concatenation of all descendant text, in document
order (`""` for an element with no text). -/
def textContent : XMLNode → String
  | .text s => s
  | .elem _ _ cs => textContentList cs

/-- Concatenation of `textContent` over a forest of siblings. -/
def textContentList : List XMLNode → String
  | [] => ""
  | c :: cs => textContent c ++ textContentList cs
end

/-- The `a ?? b ?? null` lookup chain of the source: try each tag name in
order at document level, returning the first hit. -/
def firstByTags (ts : List String) (doc : XMLNode) : Option XMLNode :=
  match ts with
  | [] => none
  | t :: rest =>
      match (elemsByTag t doc).head? with
      | some e => some e
      | none => firstByTags rest doc

/-- The errors the pipeline can raise. -/
inductive SAMLError where
  | methodNotAllowed : SAMLError
  | decryptionError (msg : String) : SAMLError
  | assertionNotYetValid : SAMLError
  | assertionExpired : SAMLError
deriving Repr, DecidableEq

/-- The output record of `parseAssertion` (`ParsedAssertion` in the source);
timestamps are modelled as integers (milliseconds), the `xml` field keeps the
assertion document. -/
structure ParsedAssertion where
  xml : XMLNode
  nameID : Option String
  attributes : List (String × List String)
  notBefore : Option Int
  notOnOrAfter : Option Int

/-- JavaScript object update `m[k] = v`: an existing key keeps its position
and gets the new value; a new key is appended. -/
def jsRecordSet (m : List (String × List String)) (k : String) (v : List String) :
    List (String × List String) :=
  match m with
  | [] => [(k, v)]
  | (k', v') :: rest =>
      if k' = k then (k, v) :: rest else (k', v') :: jsRecordSet rest k v

/-- Lookup in the output attribute mapping. -/
def lookupAL (m : List (String × List String)) (k : String) : Option (List String) :=
  (m.find? (fun p => p.1 = k)).map Prod.snd

/-- The `Attribute` node set of the document: the `saml2:`-qualified set when
it is non-empty, otherwise the unqualified set (lines 124–127 of the
source). -/
def chosenAttrNodes (doc : XMLNode) : List XMLNode :=
  if (elemsByTag "saml2:Attribute" doc).length > 0 then
    elemsByTag "saml2:Attribute" doc
  else
    elemsByTag "Attribute" doc

/-- The `AttributeValue` node set below one `Attribute` node, same
qualified-first rule scoped to that node (lines 134–137). -/
def valueNodesOf (attrNode : XMLNode) : List XMLNode :=
  if (descElemsByTag "saml2:AttributeValue" attrNode).length > 0 then
    descElemsByTag "saml2:AttributeValue" attrNode
  else
    descElemsByTag "AttributeValue" attrNode

/-- The value sequence of one `Attribute` node: text content of each of its
`AttributeValue` nodes in document order, empty texts skipped
(`if (text) values.push(text)`, lines 139–143). -/
def valuesOf (attrNode : XMLNode) : List String :=
  ((valueNodesOf attrNode).map textContent).filter (fun t => t ≠ "")

/-- One iteration of the attribute-extraction loop (lines 129–146): skip an
`Attribute` whose `Name` is falsy (`if (!name) continue`), otherwise assign
its value sequence into the JavaScript object. -/
def attrStep (m : List (String × List String)) (a : XMLNode) :
    List (String × List String) :=
  match truthy (getAttr a "Name") with
  | none => m
  | some name => jsRecordSet m name (valuesOf a)

/-- The attribute-extraction loop of `parseAssertion` (lines 129–146):
fold over the chosen `Attribute` nodes with `attrStep`, starting from the
empty object. -/
def extractAttributes (doc : XMLNode) : List (String × List String) :=
  (chosenAttrNodes doc).foldl attrStep []

/-- Guard `notBefore && now < notBefore` of line 105. -/
def checkLt (now : Int) : Option Int → Bool
  | none => false
  | some nb => decide (now < nb)

/-- Guard `notOnOrAfter && now >= notOnOrAfter` of line 110. -/
def checkGe (now : Int) : Option Int → Bool
  | none => false
  | some nooa => decide (nooa ≤ now)

/-- The first `Conditions` element of the document, qualified tag tried
first (lines 88–91). -/
def condLookup (doc : XMLNode) : Option XMLNode :=
  firstByTags ["saml2:Conditions", "Conditions"] doc

/-- The first `NameID` element of the document (lines 116–119). -/
def nameIDLookup (doc : XMLNode) : Option XMLNode :=
  firstByTags ["saml2:NameID", "NameID"] doc

/-- The truthy value of attribute `k` on the looked-up `Conditions` element
(`conditions.getAttribute(k)` guarded by `if (nb)` / `if (nooa)`,
lines 96–101). -/
def condTruthy (doc : XMLNode) (k : String) : Option String :=
  (condLookup doc).bind (fun c => truthy (getAttr c k))

/-- The `notBefore` local of `parseAssertion` (lines 93–99): the parsed
`NotBefore` attribute of the `Conditions` element, when truthy. -/
def nbOf (pd : String → Int) (doc : XMLNode) : Option Int :=
  (condTruthy doc "NotBefore").map pd

/-- The `notOnOrAfter` local of `parseAssertion` (lines 94–100). -/
def nooaOf (pd : String → Int) (doc : XMLNode) : Option Int :=
  (condTruthy doc "NotOnOrAfter").map pd

/-- Embedding of `SAMLResponse.parseAssertion` (lines 85–149), parameterised by the
`Date`-string parser `pd` and the current time `now`.  The assertion XML
string is represented by its parsed document `doc` (the source serialises
and re-parses in between, which the DOM embedding treats as the
identity). -/
def parseAssertion (pd : String → Int) (now : Int) (doc : XMLNode) :
    Except SAMLError ParsedAssertion :=
  if checkLt now (nbOf pd doc) then
    .error .assertionNotYetValid
  else if checkGe now (nooaOf pd doc) then
    .error .assertionExpired
  else
    .ok { xml := doc
          nameID := (nameIDLookup doc).map textContent
          attributes := extractAttributes doc
          notBefore := nbOf pd doc
          notOnOrAfter := nooaOf pd doc }

/-- The first `EncryptedAssertion` element of the envelope (lines 45–48). -/
def encLookup (doc : XMLNode) : Option XMLNode :=
  firstByTags ["saml2:EncryptedAssertion", "EncryptedAssertion"] doc

/-- The first plain `Assertion` element of the envelope (lines 55–58). -/
def plainLookup (doc : XMLNode) : Option XMLNode :=
  firstByTags ["saml2:Assertion", "Assertion"] doc

/-- Embedding of `SAMLResponse.processXML` after newline normalisation and DOM parsing
(lines 43–63): `decrypt` is the XML-Enc capability (it receives the
encrypted node and yields the plaintext assertion document or an error
message). -/
def processXMLDoc (decrypt : XMLNode → Except String XMLNode)
    (pd : String → Int) (now : Int) (doc : XMLNode) :
    Except SAMLError (Option ParsedAssertion) :=
  match encLookup doc with
  | some encNode =>
      match decrypt encNode with
      | .error msg => .error (.decryptionError msg)
      | .ok assertionDoc => (parseAssertion pd now assertionDoc).map some
  | none =>
      match plainLookup doc with
      | none => .ok none
      | some plainNode => (parseAssertion pd now plainNode).map some

/-- Replacement `xml.replace(/\r\n?/g, "\n")` over the character list: every CRLF pair
and every lone CR becomes LF (line 42). -/
def normaliseAux : List Char → List Char
  | [] => []
  | c :: rest =>
      if c = '\r' then
        match rest with
        | [] => ['\n']
        | c' :: rest' =>
            if c' = '\n' then '\n' :: normaliseAux rest'
            else '\n' :: normaliseAux (c' :: rest')
      else
        c :: normaliseAux rest

/-- Newline normalisation on strings. -/
def normaliseNewlines (s : String) : String :=
  ⟨normaliseAux s.data⟩

/-- Embedding of `SAMLResponse.processXML` (lines 41–64): normalise newlines, parse
(`parse` is the DOM-parser capability), then locate/decrypt/parse the
assertion. -/
def processXML (parse : String → XMLNode)
    (decrypt : XMLNode → Except String XMLNode)
    (pd : String → Int) (now : Int) (xml : String) :
    Except SAMLError (Option ParsedAssertion) :=
  processXMLDoc decrypt pd now (parse (normaliseNewlines xml))

/-- An incoming HTTP request: method and the body chunks the transport
delivers. -/
structure HttpRequest where
  method : String
  chunks : List String

/-- Embedding of `SAMLResponse.extractXMLFromRequest` (lines 151–171): reject non-POST,
assemble the body from its chunks, look `SAMLResponse` up in the
form-decoded body (`getParam`, the `URLSearchParams` capability), Base64
decode to UTF-8 text (`b64decode`). -/
def extractXMLFromRequest (getParam : String → Option String)
    (b64decode : String → String) (req : HttpRequest) :
    Except SAMLError (Option String) :=
  if req.method ≠ "POST" then
    .error .methodNotAllowed
  else
    let body := String.join req.chunks
    match getParam body with
    | none => .ok none
    | some v =>
        if v = "" then .ok none
        else
          let xml := b64decode v
          .ok (if xml = "" then none else some xml)

/-- Embedding of `SAMLResponse.processRequest` (lines 34–38). -/
def processRequest (parse : String → XMLNode)
    (decrypt : XMLNode → Except String XMLNode)
    (pd : String → Int) (now : Int)
    (getParam : String → Option String) (b64decode : String → String)
    (req : HttpRequest) : Except SAMLError (Option ParsedAssertion) :=
  match extractXMLFromRequest getParam b64decode req with
  | .error e => .error e
  | .ok none => .ok none
  | .ok (some xml) => processXML parse decrypt pd now xml

/-- Accept/reject projection of a pipeline result: which error, or success,
forgetting the record. -/
def outcome (r : Except SAMLError ParsedAssertion) : Except SAMLError Unit :=
  r.map (fun _ => ())

/-- Record-field projection of a pipeline result. -/
def resultAttrs (r : Except SAMLError ParsedAssertion) :
    Option (List (String × List String)) :=
  r.toOption.map ParsedAssertion.attributes

/-- Projection of the `nameID` field of a successful pipeline result. -/
def resultNameID (r : Except SAMLError ParsedAssertion) : Option (Option String) :=
  r.toOption.map ParsedAssertion.nameID

/-- Declarative (specification-side) rendering of the attribute mapping:
the value bound to `n` is the value sequence of the last chosen `Attribute`
node whose truthy `Name` is `n`, or nothing when no such node exists. -/
def specAttrLookup (doc : XMLNode) (n : String) : Option (List String) :=
  ((chosenAttrNodes doc).filter
      (fun a => truthy (getAttr a "Name") = some n)).getLast?.map valuesOf

/-- Qualified tag names of an XML digital signature element. -/
def isSigTag (t : String) : Bool :=
  t = "ds:Signature" || t = "Signature"

/-- Whether a node survives Signature stripping: text always, an element
unless it is a `Signature`. -/
def keepNode : XMLNode → Bool
  | .text _ => true
  | .elem t _ _ => !isSigTag t

mutual
/-- Removal of every `Signature` subtree below a node (the node itself is
kept). -/
def stripSig : XMLNode → XMLNode
  | .text s => .text s
  | .elem t a cs => .elem t a (stripSigList cs)

/-- Removal of every `Signature` subtree from a forest of siblings. -/
def stripSigList : List XMLNode → List XMLNode
  | [] => []
  | c :: cs =>
      if keepNode c then stripSig c :: stripSigList cs
      else stripSigList cs
end

mutual
/-- Whether the subtree rooted at the node contains an element tagged `t`
(the node itself included). -/
def containsTag (t : String) : XMLNode → Bool
  | .text _ => false
  | .elem tg _ cs => tg = t || containsTagList t cs

/-- Whether a forest of siblings contains an element tagged `t`. -/
def containsTagList (t : String) : List XMLNode → Bool
  | [] => false
  | c :: cs => containsTag t c || containsTagList t cs
end

mutual
/-- Whether no element tagged `t` hides inside any `Signature` subtree of
the node. -/
def sigClean (t : String) : XMLNode → Bool
  | .text _ => true
  | .elem tg _ cs =>
      if isSigTag tg then !containsTagList t cs else sigCleanList t cs

/-- Whether no element tagged `t` hides inside any `Signature` subtree of a
forest of siblings. -/
def sigCleanList (t : String) : List XMLNode → Bool
  | [] => true
  | c :: cs => sigClean t c && sigCleanList t cs
end

/-- A URL as the WHATWG model sees it for query editing: everything outside
the query string, plus the ordered name/value list of the query. -/
structure URLModel where
  base : String
  query : List (String × String)
deriving Repr, DecidableEq

/-- WHATWG `URLSearchParams.set`: when the name is already bound, the first
binding gets the new value and the other bindings disappear; otherwise the
pair is appended. -/
def setParam (q : List (String × String)) (k v : String) : List (String × String) :=
  match q with
  | [] => [(k, v)]
  | (k', v') :: rest =>
      if k' = k then (k, v) :: rest.filter (fun p => p.1 ≠ k)
      else (k', v') :: setParam rest k v

/-- Embedding of `SAMLRequest.createAuthNURL` (lines 41–46 of
`SAMLRequest.ts`): copy `idpURL` and set the `SAMLRequest` query parameter
to the Base64-encoded AuthnRequest document (`encodedRequest` stands for
`Buffer.from(this.generateAuthNRequest()).toString("base64")`). -/
def createAuthNURL (idp : URLModel) (encodedRequest : String) : URLModel :=
  { base := idp.base
    query := setParam idp.query "SAMLRequest" encodedRequest }

/-- Insertion of CR before every LF: the CRLF-line-ended rendering of an
LF-only string. -/
def crlfAux : List Char → List Char
  | [] => []
  | c :: rest =>
      if c = '\n' then '\r' :: '\n' :: crlfAux rest
      else c :: crlfAux rest

/-- The CRLF-line-ended rendering of a string. -/
def crlfVersion (s : String) : String :=
  ⟨crlfAux s.data⟩

/-! Lemmas about the attribute mapping. -/

theorem lookupAL_cons (k' : String) (v' : List String) (l : List (String × List String))
    (k : String) :
    lookupAL ((k', v') :: l) k = if k' = k then some v' else lookupAL l k := by
  by_cases h : k' = k <;> simp [lookupAL, List.find?, h]

theorem lookupAL_jsRecordSet_self (m : List (String × List String)) (k : String)
    (v : List String) : lookupAL (jsRecordSet m k v) k = some v := by
  induction m with
  | nil => simp [jsRecordSet, lookupAL_cons, lookupAL, List.find?]
  | cons p rest ih =>
    obtain ⟨k', v'⟩ := p
    by_cases hk : k' = k
    · simp [jsRecordSet, hk, lookupAL_cons]
    · simp [jsRecordSet, hk, lookupAL_cons, ih]

theorem lookupAL_jsRecordSet_other (m : List (String × List String)) (k k₂ : String)
    (v : List String) (hne : k₂ ≠ k) :
    lookupAL (jsRecordSet m k v) k₂ = lookupAL m k₂ := by
  induction m with
  | nil => simp [jsRecordSet, lookupAL_cons, lookupAL, Ne.symm hne]
  | cons p rest ih =>
    obtain ⟨k', v'⟩ := p
    by_cases hk : k' = k
    · subst hk
      have h2 : k' ≠ k₂ := Ne.symm hne
      simp [jsRecordSet, lookupAL_cons, h2]
    · simp [jsRecordSet, hk, lookupAL_cons, ih]

/-- Whether an `Attribute` node is kept with truthy name `k`. -/
def keptWith (k : String) (a : XMLNode) : Bool :=
  truthy (getAttr a "Name") = some k

theorem lookupAL_attrStep_of_not_kept (m : List (String × List String)) (a : XMLNode)
    (k : String) (h : keptWith k a = false) :
    lookupAL (attrStep m a) k = lookupAL m k := by
  unfold attrStep
  cases hname : truthy (getAttr a "Name") with
  | none => rfl
  | some name =>
      apply lookupAL_jsRecordSet_other
      intro hkk
      rw [keptWith, hname, hkk] at h
      simp at h

theorem lookupAL_foldl_attrStep (l : List XMLNode) :
    ∀ (m : List (String × List String)) (k : String),
      lookupAL (l.foldl attrStep m) k =
        match (l.filter (keptWith k)).getLast? with
        | some a => some (valuesOf a)
        | none => lookupAL m k := by
  induction l with
  | nil => intro m k; rfl
  | cons a l ih =>
    intro m k
    rw [List.foldl_cons, ih]
    by_cases ha : keptWith k a
    · rw [List.filter_cons_of_pos ha]
      cases hfl : (l.filter (keptWith k)).getLast? with
      | some b => simp [List.getLast?_cons, hfl]
      | none =>
          have hnil : l.filter (keptWith k) = [] := by
            cases hl : l.filter (keptWith k) with
            | nil => rfl
            | cons x xs => rw [hl] at hfl; simp [List.getLast?] at hfl
          simp only [hnil, List.getLast?_singleton]
          have hs : truthy (getAttr a "Name") = some k := by
            have := ha
            unfold keptWith at this
            simpa using this
          unfold attrStep
          rw [hs, lookupAL_jsRecordSet_self]
    · rw [List.filter_cons_of_neg (by simpa using ha)]
      cases hfl : (l.filter (keptWith k)).getLast? with
      | some b => simp [hfl]
      | none =>
          simp only [hfl]
          exact lookupAL_attrStep_of_not_kept m a k (by simpa using ha)

theorem lookupAL_extractAttributes (doc : XMLNode) (k : String) :
    lookupAL (extractAttributes doc) k = specAttrLookup doc k := by
  unfold extractAttributes specAttrLookup
  rw [lookupAL_foldl_attrStep]
  have hfilter : (chosenAttrNodes doc).filter (keptWith k)
      = (chosenAttrNodes doc).filter (fun a => truthy (getAttr a "Name") = some k) := by
    apply List.filter_congr
    intro a _
    rfl
  rw [← hfilter]
  cases h : ((chosenAttrNodes doc).filter (keptWith k)).getLast? with
  | none => simp [lookupAL, List.find?]
  | some b => simp

/-! Lemmas about Signature stripping. -/

theorem topAttrs_stripSig (e : XMLNode) : topAttrs (stripSig e) = topAttrs e := by
  cases e <;> rfl

theorem getAttr_stripSig (e : XMLNode) (k : String) :
    getAttr (stripSig e) k = getAttr e k := by
  unfold getAttr
  rw [topAttrs_stripSig]

mutual
theorem elemsByTag_eq_nil (t : String) :
    ∀ d, containsTag t d = false → elemsByTag t d = []
  | .text _, _ => rfl
  | .elem tg a cs, h => by
      unfold containsTag at h
      rw [Bool.or_eq_false_iff] at h
      unfold elemsByTag
      rw [if_neg (by simpa using h.1), elemsByTagList_eq_nil t cs h.2]
      rfl

theorem elemsByTagList_eq_nil (t : String) :
    ∀ cs, containsTagList t cs = false → elemsByTagList t cs = []
  | [], _ => rfl
  | c :: cs, h => by
      unfold containsTagList at h
      rw [Bool.or_eq_false_iff] at h
      unfold elemsByTagList
      rw [elemsByTag_eq_nil t c h.1, elemsByTagList_eq_nil t cs h.2]
      rfl
end

mutual
theorem containsTag_stripSig (t : String) :
    ∀ c, containsTag t c = false → containsTag t (stripSig c) = false
  | .text _, h => h
  | .elem tg a cs, h => by
      simp only [containsTag, Bool.or_eq_false_iff] at h
      simp only [stripSig, containsTag, Bool.or_eq_false_iff]
      exact ⟨h.1, containsTagList_stripSigList t cs h.2⟩

theorem containsTagList_stripSigList (t : String) :
    ∀ cs, containsTagList t cs = false → containsTagList t (stripSigList cs) = false
  | [], h => h
  | c :: cs, h => by
      simp only [containsTagList, Bool.or_eq_false_iff] at h
      by_cases hk : keepNode c
      · simp only [stripSigList, if_pos hk, containsTagList, Bool.or_eq_false_iff]
        exact ⟨containsTag_stripSig t c h.1, containsTagList_stripSigList t cs h.2⟩
      · simp only [stripSigList, if_neg hk]
        exact containsTagList_stripSigList t cs h.2
end

theorem elemsByTagList_stripList (t : String) (ht : isSigTag t = false) :
    ∀ cs, sigCleanList t cs = true →
      elemsByTagList t (stripSigList cs) = (elemsByTagList t cs).map stripSig
  | [], _ => by simp [stripSigList, elemsByTagList]
  | c :: cs, h => by
      have h' := h
      simp only [sigCleanList, Bool.and_eq_true] at h'
      obtain ⟨hhead, htail⟩ := h'
      cases c with
      | text s =>
          have hk : keepNode (XMLNode.text s) = true := rfl
          simp only [stripSigList, if_pos hk, elemsByTagList, stripSig, elemsByTag]
          rw [elemsByTagList_stripList t ht cs htail]
          simp
      | elem tg a cs' =>
          by_cases hsig : isSigTag tg
          · have hk : keepNode (XMLNode.elem tg a cs') = false := by
              simp [keepNode, hsig]
            have hcl : containsTagList t cs' = false := by
              unfold sigClean at hhead
              rw [if_pos hsig] at hhead
              simpa using hhead
            have htg : tg ≠ t := by
              intro e
              rw [e, ht] at hsig
              exact absurd hsig (by simp)
            simp only [stripSigList, hk, Bool.false_eq_true, if_false]
            rw [elemsByTagList_stripList t ht cs htail]
            simp only [elemsByTagList, elemsByTag, if_neg htg,
              elemsByTagList_eq_nil t cs' hcl]
            simp
          · have hk : keepNode (XMLNode.elem tg a cs') = true := by
              simp [keepNode, hsig]
            have hcle : sigCleanList t cs' = true := by
              unfold sigClean at hhead
              rwa [if_neg hsig] at hhead
            simp only [stripSigList, if_pos hk, elemsByTagList, stripSig, elemsByTag]
            rw [elemsByTagList_stripList t ht cs htail,
                elemsByTagList_stripList t ht cs' hcle]
            by_cases htg : tg = t
            · simp [htg, stripSig]
            · simp [htg]

theorem elemsByTag_stripSig (t : String) (ht : isSigTag t = false) (d : XMLNode)
    (h : sigClean t d = true) :
    elemsByTag t (stripSig d) = (elemsByTag t d).map stripSig := by
  cases d with
  | text s => rfl
  | elem tg a cs =>
      by_cases hsig : isSigTag tg
      · have hcl : containsTagList t cs = false := by
          unfold sigClean at h
          rw [if_pos hsig] at h
          simpa using h
        have htg : tg ≠ t := by
          intro e
          rw [e, ht] at hsig
          exact absurd hsig (by simp)
        have h1 : elemsByTagList t cs = [] := elemsByTagList_eq_nil t cs hcl
        have h2 : elemsByTagList t (stripSigList cs) = [] :=
          elemsByTagList_eq_nil t (stripSigList cs) (containsTagList_stripSigList t cs hcl)
        simp only [stripSig, elemsByTag, if_neg htg, h1, h2]
        simp
      · have hcle : sigCleanList t cs = true := by
          unfold sigClean at h
          rwa [if_neg hsig] at h
        simp only [stripSig, elemsByTag]
        rw [elemsByTagList_stripList t ht cs hcle]
        by_cases htg : tg = t
        · simp [htg, stripSig]
        · simp [htg]

theorem firstByTags_pair (t₁ t₂ : String) (doc : XMLNode) :
    firstByTags [t₁, t₂] doc =
      match (elemsByTag t₁ doc).head? with
      | some e => some e
      | none => (elemsByTag t₂ doc).head? := by
  simp only [firstByTags]
  cases (elemsByTag t₁ doc).head? with
  | some e => rfl
  | none =>
      cases (elemsByTag t₂ doc).head? with
      | some e => rfl
      | none => rfl

theorem condTruthy_stripSig (d : XMLNode)
    (h1 : sigClean "saml2:Conditions" d = true)
    (h2 : sigClean "Conditions" d = true) (k : String) :
    condTruthy (stripSig d) k = condTruthy d k := by
  unfold condTruthy condLookup
  rw [firstByTags_pair, firstByTags_pair,
      elemsByTag_stripSig "saml2:Conditions" (by decide) d h1,
      elemsByTag_stripSig "Conditions" (by decide) d h2,
      List.head?_map, List.head?_map]
  cases (elemsByTag "saml2:Conditions" d).head? with
  | some e => simp [getAttr_stripSig]
  | none =>
      cases (elemsByTag "Conditions" d).head? with
      | some e => simp [getAttr_stripSig]
      | none => rfl

theorem outcome_congr (pd : String → Int) (now : Int) (d₁ d₂ : XMLNode)
    (h : ∀ k, condTruthy d₁ k = condTruthy d₂ k) :
    outcome (parseAssertion pd now d₁) = outcome (parseAssertion pd now d₂) := by
  unfold parseAssertion outcome nbOf nooaOf
  rw [h "NotBefore", h "NotOnOrAfter"]
  by_cases hb : checkLt now ((condTruthy d₂ "NotBefore").map pd) <;>
    by_cases ha : checkGe now ((condTruthy d₂ "NotOnOrAfter").map pd) <;>
    simp [hb, ha, Except.map]

/-! Lemmas inverting `parseAssertion`. -/

theorem parseAssertion_ok_fields {pd : String → Int} {now : Int} {doc : XMLNode}
    {r : ParsedAssertion} (h : parseAssertion pd now doc = .ok r) :
    r.xml = doc ∧ r.nameID = (nameIDLookup doc).map textContent ∧
    r.attributes = extractAttributes doc ∧ r.notBefore = nbOf pd doc ∧
    r.notOnOrAfter = nooaOf pd doc := by
  unfold parseAssertion at h
  split at h
  · exact absurd h (by simp)
  · split at h
    · exact absurd h (by simp)
    · injection h with h
      subst h
      exact ⟨rfl, rfl, rfl, rfl, rfl⟩

theorem parseAssertion_ok_iff (pd : String → Int) (now : Int) (doc : XMLNode) :
    (∃ r, parseAssertion pd now doc = .ok r) ↔
      checkLt now (nbOf pd doc) = false ∧ checkGe now (nooaOf pd doc) = false := by
  unfold parseAssertion
  constructor
  · rintro ⟨r, hr⟩
    by_cases h1 : checkLt now (nbOf pd doc) <;>
      by_cases h2 : checkGe now (nooaOf pd doc) <;>
      simp [h1, h2] at hr ⊢
  · rintro ⟨h1, h2⟩
    simp only [h1, h2, Bool.false_eq_true, if_false]
    exact ⟨_, rfl⟩

/-! Lemmas about newline normalisation. -/

theorem normaliseAux_cons_ne (c : Char) (hc : c ≠ '\r') (rest : List Char) :
    normaliseAux (c :: rest) = c :: normaliseAux rest := by
  rw [normaliseAux.eq_def]
  simp [hc]

theorem normaliseAux_of_noCR : ∀ l, '\r' ∉ l → normaliseAux l = l
  | [], _ => rfl
  | c :: rest, h => by
      have hc : c ≠ '\r' := by
        rintro rfl
        exact h (List.mem_cons_self _ _)
      have hr : '\r' ∉ rest := fun m => h (List.mem_cons_of_mem _ m)
      rw [normaliseAux_cons_ne c hc rest, normaliseAux_of_noCR rest hr]

theorem normaliseAux_crlf_of_noCR : ∀ l, '\r' ∉ l → normaliseAux (crlfAux l) = l
  | [], _ => rfl
  | c :: rest, h => by
      have hc : c ≠ '\r' := by
        rintro rfl
        exact h (List.mem_cons_self _ _)
      have hr : '\r' ∉ rest := fun m => h (List.mem_cons_of_mem _ m)
      by_cases hn : c = '\n'
      · subst hn
        have e1 : crlfAux ('\n' :: rest) = '\r' :: '\n' :: crlfAux rest := by
          simp [crlfAux]
        rw [e1]
        have e2 : normaliseAux ('\r' :: '\n' :: crlfAux rest)
            = '\n' :: normaliseAux (crlfAux rest) := by
          rw [normaliseAux.eq_def]
          simp
        rw [e2, normaliseAux_crlf_of_noCR rest hr]
      · have e1 : crlfAux (c :: rest) = c :: crlfAux rest := by
          simp [crlfAux, hn]
        rw [e1, normaliseAux_cons_ne c hc _, normaliseAux_crlf_of_noCR rest hr]

theorem noCR_normaliseAux (l : List Char) : '\r' ∉ normaliseAux l := by
  induction l using normaliseAux.induct with
  | case1 =>
      rw [normaliseAux.eq_def]
      decide
  | case2 =>
      rw [normaliseAux.eq_def]
      decide
  | case3 rest' ih =>
      have e : normaliseAux ('\r' :: '\n' :: rest') = '\n' :: normaliseAux rest' := by
        rw [normaliseAux.eq_def]
        simp
      rw [e, List.mem_cons]
      rintro (h | m)
      · exact absurd h (by decide)
      · exact ih m
  | case4 c' rest' hn ih =>
      have e : normaliseAux ('\r' :: c' :: rest') = '\n' :: normaliseAux (c' :: rest') := by
        rw [normaliseAux.eq_def]
        simp [hn]
      rw [e, List.mem_cons]
      rintro (h | m)
      · exact absurd h (by decide)
      · exact ih m
  | case5 c rest' hc ih =>
      rw [normaliseAux_cons_ne c (fun e => hc e) rest', List.mem_cons]
      rintro (h | m)
      · exact hc h.symm
      · exact ih m

theorem normaliseNewlines_of_noCR (s : String) (h : '\r' ∉ s.data) :
    normaliseNewlines s = s := by
  unfold normaliseNewlines
  rw [normaliseAux_of_noCR s.data h]

theorem normaliseNewlines_crlfVersion (s : String) (h : '\r' ∉ s.data) :
    normaliseNewlines (crlfVersion s) = s := by
  unfold normaliseNewlines crlfVersion
  rw [normaliseAux_crlf_of_noCR s.data h]

/-! Lemmas about query-parameter update. -/

theorem setParam_cons (k' v' k v : String) (rest : List (String × String)) :
    setParam ((k', v') :: rest) k v =
      if k' = k then (k, v) :: rest.filter (fun p => p.1 ≠ k)
      else (k', v') :: setParam rest k v := rfl

theorem setParam_countP (q : List (String × String)) (k v : String) :
    (setParam q k v).countP (fun p => p.1 = k) = 1 := by
  induction q with
  | nil => simp [setParam, List.countP_cons]
  | cons p rest ih =>
      obtain ⟨k', v'⟩ := p
      by_cases h : k' = k
      · subst h
        rw [setParam_cons, if_pos rfl, List.countP_cons]
        have h0 : (rest.filter (fun p => p.1 ≠ k')).countP (fun p => p.1 = k') = 0 := by
          rw [List.countP_eq_zero]
          intro a ha
          have h1 := List.of_mem_filter ha
          simpa using h1
        simp [h0]
      · rw [setParam_cons, if_neg h, List.countP_cons]
        simp [ih, h]

theorem setParam_filter_ne (q : List (String × String)) (k v : String) :
    (setParam q k v).filter (fun p => p.1 ≠ k) = q.filter (fun p => p.1 ≠ k) := by
  induction q with
  | nil => simp [setParam]
  | cons p rest ih =>
      obtain ⟨k', v'⟩ := p
      by_cases h : k' = k
      · subst h
        rw [setParam_cons, if_pos rfl]
        rw [List.filter_cons_of_neg (by simp), List.filter_cons_of_neg (by simp)]
        rw [List.filter_filter]
        apply List.filter_congr
        intro a _
        simp
      · rw [setParam_cons, if_neg h]
        rw [List.filter_cons_of_pos (by simpa using h),
            List.filter_cons_of_pos (by simpa using h), ih]

theorem setParam_self_mem (q : List (String × String)) (k v : String) :
    (k, v) ∈ setParam q k v := by
  induction q with
  | nil => simp [setParam]
  | cons p rest ih =>
      obtain ⟨k', v'⟩ := p
      by_cases h : k' = k
      · simp [setParam, h]
      · simp only [setParam, if_neg h, List.mem_cons]
        exact Or.inr ih

theorem setParam_mem_of_ne (q : List (String × String)) (k v : String)
    (p : String × String) (hp : p ∈ q) (hne : p.1 ≠ k) : p ∈ setParam q k v := by
  have h1 : p ∈ q.filter (fun x => x.1 ≠ k) := by
    rw [List.mem_filter]
    exact ⟨hp, by simpa using hne⟩
  rw [← setParam_filter_ne q k v] at h1
  exact (List.mem_filter.mp h1).1

theorem setParam_of_all_ne (q : List (String × String)) (k v : String)
    (h : ∀ p ∈ q, p.1 ≠ k) : setParam q k v = q ++ [(k, v)] := by
  induction q with
  | nil => rfl
  | cons p rest ih =>
      obtain ⟨k', v'⟩ := p
      have hne : k' ≠ k := h (k', v') (List.mem_cons_self _ _)
      simp only [setParam, if_neg hne, List.cons_append]
      rw [ih (fun p hp => h p (List.mem_cons_of_mem _ hp))]

/-! Concrete fixtures used by counterexamples and witnesses. -/

/-- Date parser sending every string to time 0. -/
def pd0 : String → Int := fun _ => 0

/-- Date parser for the inverted-window counterexample: `"b"` parses after
`"a"`. -/
def pdBA : String → Int := fun s => if s = "b" then 10 else 5

/-- Date parser for the C1 witness: `"b"` parses to 0, everything else
to 10. -/
def pdW : String → Int := fun s => if s = "b" then 0 else 10

/-- Assertion whose `Conditions` carries an inverted validity window. -/
def cxDoc1 : XMLNode :=
  .elem "Assertion" [] [.elem "Conditions" [("NotBefore", "b"), ("NotOnOrAfter", "a")] []]

/-- Assertion with a `NameID` and no `Conditions` and no `Signature`. -/
def cxSigFree : XMLNode :=
  .elem "Assertion" [] [.elem "NameID" [] [.text "alice"]]

/-- The same assertion with a `Signature` whose subtree smuggles a
`Conditions` element carrying an expired `NotOnOrAfter`. -/
def cxSigged : XMLNode :=
  .elem "Assertion" []
    [.elem "NameID" [] [.text "alice"],
     .elem "ds:Signature" [] [.elem "Conditions" [("NotOnOrAfter", "x")] []]]

/-- The same assertion with a well-formed XML-DSig `Signature` (no SAML
vocabulary inside). -/
def cxSignedClean : XMLNode :=
  .elem "Assertion" []
    [.elem "NameID" [] [.text "alice"],
     .elem "ds:Signature" [] [.elem "ds:SignedInfo" [] [], .elem "ds:SignatureValue" [] [.text "AbCd"]]]

/-- Envelope holding one `saml2:EncryptedAssertion`. -/
def cxEnvEnc : XMLNode :=
  .elem "samlp:Response" [] [.elem "saml2:EncryptedAssertion" [] []]

/-- Decryption capability that always fails. -/
def decryptErr : XMLNode → Except String XMLNode := fun _ => .error "nope"

/-- Assertion with no `Conditions` element at all. -/
def docNoCond : XMLNode := .elem "Assertion" [] []

/-- DOM parser stub for closed witnesses. -/
def parseK : String → XMLNode := fun _ => .text ""

/-- Form-body lookup that never finds `SAMLResponse`. -/
def getParamNone : String → Option String := fun _ => none

/-- Base64 decoder stub (identity). -/
def b64id : String → String := fun s => s

/-- C1: for every assertion processed by `processXML` whose `Conditions`
element carries both `NotBefore` and `NotOnOrAfter`, the claim asserts that
`now ≥ NotOnOrAfter` fails with `AssertionExpired`; on the inverted window
`NotBefore = 10, NotOnOrAfter = 5, now = 7` the code fails with
`AssertionNotYetValid` instead, because the `NotBefore` check runs first.
This refutes the claim as stated. -/
theorem C1_counterexample :
    condTruthy cxDoc1 "NotBefore" = some "b" ∧
    condTruthy cxDoc1 "NotOnOrAfter" = some "a" ∧
    pdBA "a" ≤ 7 ∧
    parseAssertion pdBA 7 cxDoc1 = .error .assertionNotYetValid ∧
    SAMLError.assertionNotYetValid ≠ SAMLError.assertionExpired :=
  ⟨rfl, rfl, by decide, rfl, by decide⟩

/-- C1 (amended): when `Conditions` carries both timestamps (as non-empty
attribute values parsed by `pd`), a record is returned iff
`notBefore ≤ now < notOnOrAfter`; `now < notBefore` fails with
`AssertionNotYetValid` (this check takes precedence); `now ≥ notOnOrAfter`
fails with `AssertionExpired` unless `now < notBefore`. `NotBefore` is
inclusive and `NotOnOrAfter` exclusive. -/
theorem C1_amended_thm (pd : String → Int) (now : Int) (doc : XMLNode)
    (nbs nooas : String)
    (hnb : condTruthy doc "NotBefore" = some nbs)
    (hnooa : condTruthy doc "NotOnOrAfter" = some nooas) :
    ((∃ r, parseAssertion pd now doc = .ok r) ↔ (pd nbs ≤ now ∧ now < pd nooas)) ∧
    (now < pd nbs → parseAssertion pd now doc = .error .assertionNotYetValid) ∧
    (pd nbs ≤ now → pd nooas ≤ now →
      parseAssertion pd now doc = .error .assertionExpired) := by
  have e1 : nbOf pd doc = some (pd nbs) := by rw [nbOf, hnb]; rfl
  have e2 : nooaOf pd doc = some (pd nooas) := by rw [nooaOf, hnooa]; rfl
  refine ⟨?_, ?_, ?_⟩
  · rw [parseAssertion_ok_iff, e1, e2]
    simp only [checkLt, checkGe, decide_eq_false_iff_not]
    constructor
    · rintro ⟨h1, h2⟩
      omega
    · rintro ⟨h1, h2⟩
      omega
  · intro h
    simp only [parseAssertion, e1]
    have ht : checkLt now (some (pd nbs)) = true := by
      simp [checkLt, h]
    simp [ht]
  · intro h1 h2
    simp only [parseAssertion, e1, e2]
    have hA : checkLt now (some (pd nbs)) = false := by
      simp only [checkLt, decide_eq_false_iff_not]
      omega
    have hB : checkGe now (some (pd nooas)) = true := by
      simp [checkGe, h2]
    simp [hA, hB]

/-- C1 (witness): the amended theorem applied to a concrete assertion with
`NotBefore = 0`, `NotOnOrAfter = 10` at `now = 5` yields a record. -/
theorem C1_witness :
    condTruthy cxDoc1 "NotBefore" = some "b" ∧
    condTruthy cxDoc1 "NotOnOrAfter" = some "a" ∧
    (∃ r, parseAssertion pdW 5 cxDoc1 = .ok r) :=
  ⟨rfl, rfl, (C1_amended_thm pdW 5 cxDoc1 "b" "a" rfl rfl).1.mpr (by decide)⟩

/-- C2: the claim that two assertion documents differing only in a
`Signature` element yield the same accept/reject outcome is refuted: the
lookups search the whole document, so a `Conditions` element smuggled
inside a `Signature` changes the outcome (accept becomes
`AssertionExpired`). -/
theorem C2_counterexample :
    stripSig cxSigFree = stripSig cxSigged ∧
    outcome (parseAssertion pd0 0 cxSigFree) = .ok () ∧
    outcome (parseAssertion pd0 0 cxSigged) = .error .assertionExpired ∧
    (Except.ok () : Except SAMLError Unit) ≠ .error .assertionExpired :=
  ⟨rfl, rfl, rfl, fun h => Except.noConfusion h⟩

/-- C2 (amended): the pipeline performs no signature verification — every
assertion whose temporal checks pass yields a record, and two documents
that differ only in `Signature` subtrees yield the same accept/reject
outcome provided no `Conditions` element (prefixed or not) hides inside a
`Signature` subtree of either document. -/
theorem C2_amended_thm (pd : String → Int) (now : Int) :
    (∀ doc, checkLt now (nbOf pd doc) = false → checkGe now (nooaOf pd doc) = false →
      ∃ r, parseAssertion pd now doc = .ok r) ∧
    (∀ d₁ d₂, sigClean "saml2:Conditions" d₁ = true → sigClean "Conditions" d₁ = true →
      sigClean "saml2:Conditions" d₂ = true → sigClean "Conditions" d₂ = true →
      stripSig d₁ = stripSig d₂ →
      outcome (parseAssertion pd now d₁) = outcome (parseAssertion pd now d₂)) := by
  constructor
  · intro doc h1 h2
    exact (parseAssertion_ok_iff pd now doc).mpr ⟨h1, h2⟩
  · intro d₁ d₂ hc1 hc2 hc3 hc4 hstrip
    apply outcome_congr
    intro k
    have e1 := condTruthy_stripSig d₁ hc1 hc2 k
    have e2 := condTruthy_stripSig d₂ hc3 hc4 k
    rw [← e1, ← e2, hstrip]

/-- C2 (witness): the amended theorem applied to a signature-free assertion
and to the same assertion with a well-formed `ds:Signature` added. -/
theorem C2_witness :
    (∃ r, parseAssertion pd0 0 cxSigFree = .ok r) ∧
    outcome (parseAssertion pd0 0 cxSigFree) = outcome (parseAssertion pd0 0 cxSignedClean) :=
  ⟨(C2_amended_thm pd0 0).1 cxSigFree rfl rfl,
   (C2_amended_thm pd0 0).2 cxSigFree cxSignedClean rfl rfl rfl rfl rfl⟩

/-- C3: `processXML` searches `EncryptedAssertion` first (`saml2:`-qualified
tag before the unqualified one); a found node is decrypted and any
decryption failure fails the whole operation; only with no
`EncryptedAssertion` is a plain `Assertion` searched (same order); with
neither element the result is `none`, not an error. -/
theorem C3_thm (decrypt : XMLNode → Except String XMLNode) (pd : String → Int)
    (now : Int) (doc : XMLNode) :
    (∀ e, encLookup doc = some e →
      (∀ msg, decrypt e = .error msg →
        processXMLDoc decrypt pd now doc = .error (.decryptionError msg)) ∧
      (∀ d, decrypt e = .ok d →
        processXMLDoc decrypt pd now doc = (parseAssertion pd now d).map some)) ∧
    (elemsByTag "saml2:EncryptedAssertion" doc ≠ [] →
      encLookup doc = (elemsByTag "saml2:EncryptedAssertion" doc).head?) ∧
    (elemsByTag "saml2:EncryptedAssertion" doc = [] →
      encLookup doc = (elemsByTag "EncryptedAssertion" doc).head?) ∧
    (elemsByTag "saml2:Assertion" doc ≠ [] →
      plainLookup doc = (elemsByTag "saml2:Assertion" doc).head?) ∧
    (elemsByTag "saml2:Assertion" doc = [] →
      plainLookup doc = (elemsByTag "Assertion" doc).head?) ∧
    (encLookup doc = none → plainLookup doc = none →
      processXMLDoc decrypt pd now doc = .ok none) ∧
    (encLookup doc = none → ∀ p, plainLookup doc = some p →
      processXMLDoc decrypt pd now doc = (parseAssertion pd now p).map some) := by
  refine ⟨?_, ?_, ?_, ?_, ?_, ?_, ?_⟩
  · intro e he
    constructor
    · intro msg hmsg
      simp only [processXMLDoc, he, hmsg]
    · intro d hd
      simp only [processXMLDoc, he, hd]
  · intro hne
    unfold encLookup
    rw [firstByTags_pair]
    cases h : (elemsByTag "saml2:EncryptedAssertion" doc).head? with
    | some e => rfl
    | none => exact absurd (List.head?_eq_none_iff.mp h) hne
  · intro hnil
    unfold encLookup
    rw [firstByTags_pair, hnil]
    rfl
  · intro hne
    unfold plainLookup
    rw [firstByTags_pair]
    cases h : (elemsByTag "saml2:Assertion" doc).head? with
    | some e => rfl
    | none => exact absurd (List.head?_eq_none_iff.mp h) hne
  · intro hnil
    unfold plainLookup
    rw [firstByTags_pair, hnil]
    rfl
  · intro henc hplain
    simp only [processXMLDoc, henc, hplain]
  · intro henc p hp
    simp only [processXMLDoc, henc, hp]

/-- C3 (witness): the theorem applied to an envelope with one
`saml2:EncryptedAssertion` and an always-failing decryptor. -/
theorem C3_witness :
    encLookup cxEnvEnc = some (.elem "saml2:EncryptedAssertion" [] []) ∧
    decryptErr (.elem "saml2:EncryptedAssertion" [] []) = .error "nope" ∧
    processXMLDoc decryptErr pd0 0 cxEnvEnc = .error (.decryptionError "nope") :=
  ⟨rfl, rfl,
   ((C3_thm decryptErr pd0 0 cxEnvEnc).1 (.elem "saml2:EncryptedAssertion" [] []) rfl).1
     "nope" rfl⟩

/-- C4: with no `Conditions` element, or a `Conditions` with neither
`NotBefore` nor `NotOnOrAfter` attribute, `processXML` never fails on
temporal grounds and both timestamp fields of the record are absent. -/
theorem C4_thm (pd : String → Int) (now : Int) (doc : XMLNode)
    (h : condLookup doc = none ∨
      ∃ c, condLookup doc = some c ∧ getAttr c "NotBefore" = none ∧
        getAttr c "NotOnOrAfter" = none) :
    ∃ r, parseAssertion pd now doc = .ok r ∧
      r.notBefore = none ∧ r.notOnOrAfter = none := by
  have hnb : condTruthy doc "NotBefore" = none := by
    rcases h with h | ⟨c, hc, h1, _⟩
    · simp [condTruthy, h]
    · simp [condTruthy, hc, h1, truthy]
  have hnooa : condTruthy doc "NotOnOrAfter" = none := by
    rcases h with h | ⟨c, hc, _, h2⟩
    · simp [condTruthy, h]
    · simp [condTruthy, hc, h2, truthy]
  have e1 : nbOf pd doc = none := by rw [nbOf, hnb]; rfl
  have e2 : nooaOf pd doc = none := by rw [nooaOf, hnooa]; rfl
  obtain ⟨r, hr⟩ := (parseAssertion_ok_iff pd now doc).mpr
    ⟨by rw [e1]; rfl, by rw [e2]; rfl⟩
  refine ⟨r, hr, ?_, ?_⟩
  · rw [(parseAssertion_ok_fields hr).2.2.2.1, e1]
  · rw [(parseAssertion_ok_fields hr).2.2.2.2, e2]

/-- C4 (witness): the theorem applied to an assertion with no `Conditions`
element. -/
theorem C4_witness :
    condLookup docNoCond = none ∧
    (∃ r, parseAssertion pd0 0 docNoCond = .ok r ∧
      r.notBefore = none ∧ r.notOnOrAfter = none) :=
  ⟨rfl, C4_thm pd0 0 docNoCond (Or.inl rfl)⟩

/-- Attribute node with one empty-text and one non-empty `AttributeValue`. -/
def cxAttr5 : XMLNode :=
  .elem "Attribute" [("Name", "a")]
    [.elem "AttributeValue" [] [], .elem "AttributeValue" [] [.text "x"]]

/-- Assertion holding `cxAttr5`. -/
def cxDoc5 : XMLNode := .elem "Assertion" [] [cxAttr5]

/-- Assertion with the spec's two-attribute example. -/
def cxDoc5w : XMLNode :=
  .elem "Assertion" []
    [.elem "Attribute" [("Name", "email")]
       [.elem "AttributeValue" [] [.text "alice@example.com"]],
     .elem "Attribute" [("Name", "roles")]
       [.elem "AttributeValue" [] [.text "admin"],
        .elem "AttributeValue" [] [.text "user"]]]

/-- C5: the claim that the text content of each child `AttributeValue` is
collected is refuted: an `AttributeValue` whose text content is empty is
skipped (`if (text) values.push(text)`), so an attribute with children
texts `["", "x"]` is bound to `["x"]`, not `["", "x"]`. -/
theorem C5_counterexample :
    (valueNodesOf cxAttr5).map textContent = ["", "x"] ∧
    resultAttrs (parseAssertion pd0 0 cxDoc5) = some [("a", ["x"])] ∧
    (["x"] : List String) ≠ ["", "x"] :=
  ⟨rfl, rfl, by decide⟩

/-- C5 (amended): attribute extraction takes the `saml2:`-qualified
`Attribute` set whenever non-empty, else the unqualified set (all-or-nothing
per document, and the same rule per attribute node for `AttributeValue`);
an `Attribute` with falsy `Name` is skipped; each kept attribute's value
sequence is the document-order list of the non-empty text contents of its
`AttributeValue` nodes (empty texts skipped); the mapping binds each name to
the value sequence of its last kept occurrence. -/
theorem C5_amended_thm (pd : String → Int) (now : Int) (doc : XMLNode)
    (n : String) {r : ParsedAssertion} (h : parseAssertion pd now doc = .ok r) :
    lookupAL r.attributes n = specAttrLookup doc n ∧
    (elemsByTag "saml2:Attribute" doc ≠ [] →
      chosenAttrNodes doc = elemsByTag "saml2:Attribute" doc) ∧
    (elemsByTag "saml2:Attribute" doc = [] →
      chosenAttrNodes doc = elemsByTag "Attribute" doc) ∧
    (∀ a, descElemsByTag "saml2:AttributeValue" a ≠ [] →
      valueNodesOf a = descElemsByTag "saml2:AttributeValue" a) ∧
    (∀ a, descElemsByTag "saml2:AttributeValue" a = [] →
      valueNodesOf a = descElemsByTag "AttributeValue" a) ∧
    (∀ a, valuesOf a = ((valueNodesOf a).map textContent).filter (fun t => t ≠ "")) := by
  have hattr : r.attributes = extractAttributes doc := (parseAssertion_ok_fields h).2.2.1
  refine ⟨?_, ?_, ?_, ?_, ?_, fun a => rfl⟩
  · rw [hattr, lookupAL_extractAttributes]
  · intro hne
    unfold chosenAttrNodes
    rw [if_pos (by simpa using List.length_pos.mpr hne)]
  · intro hnil
    unfold chosenAttrNodes
    rw [hnil]
    simp
  · intro a hne
    unfold valueNodesOf
    rw [if_pos (by simpa using List.length_pos.mpr hne)]
  · intro a hnil
    unfold valueNodesOf
    rw [hnil]
    simp

/-- C5 (witness): the amended theorem applied to the spec's example document
(`email`, `roles`) at the key `roles`. -/
theorem C5_witness :
    ∃ r, parseAssertion pd0 0 cxDoc5w = .ok r ∧
      lookupAL r.attributes "roles" = specAttrLookup cxDoc5w "roles" ∧
      lookupAL r.attributes "roles" = some ["admin", "user"] := by
  refine ⟨_, rfl, (C5_amended_thm pd0 0 cxDoc5w "roles" rfl).1, ?_⟩
  rfl

/-- Incoming GET request with empty body. -/
def reqGet : HttpRequest := ⟨"GET", []⟩

/-- C6: `processRequest` fails with `MethodNotAllowed` for non-POST; a POST
whose form body lacks `SAMLResponse`, or whose field is empty or decodes to
the empty string, yields `none` (not an error); otherwise the decoded text
is processed by `processXML`. -/
theorem C6_thm (parse : String → XMLNode) (decrypt : XMLNode → Except String XMLNode)
    (pd : String → Int) (now : Int) (getParam : String → Option String)
    (b64decode : String → String) (req : HttpRequest) :
    (req.method ≠ "POST" →
      processRequest parse decrypt pd now getParam b64decode req =
        .error .methodNotAllowed) ∧
    (req.method = "POST" → getParam (String.join req.chunks) = none →
      processRequest parse decrypt pd now getParam b64decode req = .ok none) ∧
    (req.method = "POST" → ∀ v, getParam (String.join req.chunks) = some v →
      v = "" ∨ b64decode v = "" →
      processRequest parse decrypt pd now getParam b64decode req = .ok none) ∧
    (req.method = "POST" → ∀ v, getParam (String.join req.chunks) = some v →
      v ≠ "" → b64decode v ≠ "" →
      processRequest parse decrypt pd now getParam b64decode req =
        processXML parse decrypt pd now (b64decode v)) := by
  refine ⟨?_, ?_, ?_, ?_⟩
  · intro h
    simp [processRequest, extractXMLFromRequest, h]
  · intro hm hg
    simp [processRequest, extractXMLFromRequest, hm, hg]
  · intro hm v hv hor
    rcases hor with h0 | h0
    · subst h0
      simp [processRequest, extractXMLFromRequest, hm, hv]
    · by_cases hv0 : v = ""
      · simp [processRequest, extractXMLFromRequest, hm, hv, hv0]
      · simp [processRequest, extractXMLFromRequest, hm, hv, hv0, h0]
  · intro hm v hv hv0 hx
    simp [processRequest, extractXMLFromRequest, hm, hv, hv0, hx]

/-- C6 (witness): the theorem applied to a GET request. -/
theorem C6_witness :
    reqGet.method ≠ "POST" ∧
    processRequest parseK decryptErr pd0 0 getParamNone b64id reqGet =
      .error .methodNotAllowed :=
  ⟨by decide,
   (C6_thm parseK decryptErr pd0 0 getParamNone b64id reqGet).1 (by decide)⟩

/-- IdP URL that already carries a `SAMLRequest` query parameter. -/
def cxIdp : URLModel := ⟨"https://idp.example.com/sso", [("SAMLRequest", "old")]⟩

/-- IdP URL with one unrelated pre-existing query parameter. -/
def cxIdpW : URLModel := ⟨"https://idp.example.com/sso", [("foo", "bar")]⟩

/-- C7: the claim that every pre-existing query parameter of `idpURL` is
preserved is refuted when `idpURL` itself already carries a `SAMLRequest`
parameter: `URLSearchParams.set` replaces it. -/
theorem C7_counterexample :
    ("SAMLRequest", "old") ∈ cxIdp.query ∧
    ("SAMLRequest", "old") ∉ (createAuthNURL cxIdp "new").query :=
  ⟨by decide, by decide⟩

/-- C7 (amended): `createAuthNURL` copies `idpURL`, leaves everything
outside the query untouched, preserves every pre-existing query parameter
whose name is not `SAMLRequest` (an existing `SAMLRequest` parameter is
replaced), and the result carries exactly one `SAMLRequest` parameter,
bound to the Base64-encoded freshly generated AuthnRequest document. -/
theorem C7_amended_thm (idp : URLModel) (enc : String) :
    (createAuthNURL idp enc).base = idp.base ∧
    (createAuthNURL idp enc).query.countP (fun p => p.1 = "SAMLRequest") = 1 ∧
    ("SAMLRequest", enc) ∈ (createAuthNURL idp enc).query ∧
    ((createAuthNURL idp enc).query.filter (fun p => p.1 ≠ "SAMLRequest") =
      idp.query.filter (fun p => p.1 ≠ "SAMLRequest")) ∧
    (∀ p ∈ idp.query, p.1 ≠ "SAMLRequest" → p ∈ (createAuthNURL idp enc).query) ∧
    ((∀ p ∈ idp.query, p.1 ≠ "SAMLRequest") →
      (createAuthNURL idp enc).query = idp.query ++ [("SAMLRequest", enc)]) :=
  ⟨rfl, setParam_countP _ _ _, setParam_self_mem _ _ _, setParam_filter_ne _ _ _,
   fun p hp hne => setParam_mem_of_ne _ _ _ p hp hne,
   fun h => setParam_of_all_ne _ _ _ h⟩

/-- C7 (witness): the amended theorem applied to an IdP URL with one
unrelated pre-existing parameter. -/
theorem C7_witness :
    (∀ p ∈ cxIdpW.query, p.1 ≠ "SAMLRequest") ∧
    (createAuthNURL cxIdpW "enc").query = [("foo", "bar"), ("SAMLRequest", "enc")] :=
  ⟨by decide, (C7_amended_thm cxIdpW "enc").2.2.2.2.2 (by decide)⟩

/-- Assertion whose `NameID` element has no text. -/
def cxDoc8 : XMLNode := .elem "Assertion" [] [.elem "NameID" [] []]

/-- Assertion with a non-empty `NameID`. -/
def cxDoc8w : XMLNode :=
  .elem "Assertion" [] [.elem "NameID" [] [.text "alice@example.com"]]

/-- C8: the claim that `nameID` is absent whenever the `NameID` element has
no text is refuted: `textContent` of an empty element is the empty string,
so the record carries `nameID = ""` (present), not `null`. -/
theorem C8_counterexample :
    resultNameID (parseAssertion pd0 0 cxDoc8) = some (some "") ∧
    (some "" : Option String) ≠ none :=
  ⟨rfl, by decide⟩

/-- C8 (amended): `nameID` is the text content of the first `NameID`
element found (`saml2:`-qualified tried before unqualified) — possibly the
empty string when the element has no text — and is absent only when no
`NameID` element exists. -/
theorem C8_amended_thm (pd : String → Int) (now : Int) (doc : XMLNode)
    {r : ParsedAssertion} (h : parseAssertion pd now doc = .ok r) :
    r.nameID = (nameIDLookup doc).map textContent ∧
    (nameIDLookup doc = none → r.nameID = none) ∧
    (∀ e, nameIDLookup doc = some e → r.nameID = some (textContent e)) := by
  have h1 := (parseAssertion_ok_fields h).2.1
  refine ⟨h1, ?_, ?_⟩
  · intro hn
    rw [h1, hn]
    rfl
  · intro e he
    rw [h1, he]
    rfl

/-- C8 (witness): the amended theorem applied to an assertion whose
`NameID` holds `alice@example.com`. -/
theorem C8_witness :
    ∃ r, parseAssertion pd0 0 cxDoc8w = .ok r ∧ r.nameID = some "alice@example.com" := by
  refine ⟨_, rfl, ?_⟩
  have h := (C8_amended_thm pd0 0 cxDoc8w rfl).2.2
    (XMLNode.elem "NameID" [] [.text "alice@example.com"]) rfl
  rw [h]
  rfl

/-- C9: `processXML` normalises every CRLF and lone CR to LF before
parsing, so the CRLF-line-ended rendering of a LF-only string is processed
identically to the LF-only string, and the normalised input contains no
CR. -/
theorem C9_thm (parse : String → XMLNode) (decrypt : XMLNode → Except String XMLNode)
    (pd : String → Int) (now : Int) (s : String) (h : '\r' ∉ s.data) :
    processXML parse decrypt pd now (crlfVersion s) = processXML parse decrypt pd now s ∧
    (∀ t : String, '\r' ∉ (normaliseNewlines t).data) := by
  constructor
  · unfold processXML
    rw [normaliseNewlines_crlfVersion s h, normaliseNewlines_of_noCR s h]
  · intro t
    exact noCR_normaliseAux t.data

/-- C9 (witness): the theorem applied to the LF-only string `"a\nb"`. -/
theorem C9_witness :
    ('\r' ∉ ("a\nb" : String).data) ∧
    processXML parseK decryptErr pd0 0 (crlfVersion "a\nb") =
      processXML parseK decryptErr pd0 0 "a\nb" :=
  ⟨by decide, (C9_thm parseK decryptErr pd0 0 "a\nb" (by decide)).1⟩

/-- Two `Attribute` nodes both carrying the empty `Name`. -/
def cxDoc10 : XMLNode :=
  .elem "Assertion" []
    [.elem "Attribute" [("Name", "")] [.elem "AttributeValue" [] [.text "v1"]],
     .elem "Attribute" [("Name", "")] [.elem "AttributeValue" [] [.text "v2"]]]

/-- Two `Attribute` nodes sharing the non-empty name `dup`. -/
def cxDoc10w : XMLNode :=
  .elem "Assertion" []
    [.elem "Attribute" [("Name", "dup")] [.elem "AttributeValue" [] [.text "first"]],
     .elem "Attribute" [("Name", "dup")] [.elem "AttributeValue" [] [.text "second"]]]

/-- C10: the claim that a duplicated `Name` is always bound to the last
occurrence's value sequence is refuted at `Name = ""`: both occurrences are
skipped by the falsy-name check, so the mapping binds nothing at all. -/
theorem C10_counterexample :
    (chosenAttrNodes cxDoc10).countP (fun a => getAttr a "Name" = some "") = 2 ∧
    resultAttrs (parseAssertion pd0 0 cxDoc10) = some [] ∧
    lookupAL [] "" = none :=
  ⟨rfl, rfl, rfl⟩

/-- C10 (amended): for a non-empty name occurring on two or more chosen
`Attribute` nodes, the output mapping binds that name to the value sequence
of the last such node in document order — earlier occurrences are silently
overwritten. -/
theorem C10_amended_thm (pd : String → Int) (now : Int) (doc : XMLNode)
    (n : String) {r : ParsedAssertion} (hn : n ≠ "")
    (hdup : 2 ≤ (chosenAttrNodes doc).countP (fun a => getAttr a "Name" = some n))
    (h : parseAssertion pd now doc = .ok r) :
    lookupAL r.attributes n =
      ((chosenAttrNodes doc).filter
        (fun a => getAttr a "Name" = some n)).getLast?.map valuesOf ∧
    ((chosenAttrNodes doc).filter
        (fun a => getAttr a "Name" = some n)).getLast?.isSome = true := by
  have hattr : r.attributes = extractAttributes doc := (parseAssertion_ok_fields h).2.2.1
  have hfe : (chosenAttrNodes doc).filter (fun a => truthy (getAttr a "Name") = some n)
      = (chosenAttrNodes doc).filter (fun a => getAttr a "Name" = some n) := by
    apply List.filter_congr
    intro a _
    cases hg : getAttr a "Name" with
    | none => simp [truthy]
    | some s =>
        by_cases hs : s = ""
        · subst hs
          simp [truthy, Ne.symm hn]
        · simp [truthy, hs]
  constructor
  · rw [hattr, lookupAL_extractAttributes, specAttrLookup, hfe]
  · have hne : (chosenAttrNodes doc).filter (fun a => getAttr a "Name" = some n) ≠ [] := by
      intro e
      rw [List.countP_eq_length_filter, e] at hdup
      simp at hdup
    rw [List.getLast?_isSome]
    simpa using hne

/-- C10 (witness): the amended theorem applied to two attributes named
`dup`; the mapping binds `dup` to the second value sequence. -/
theorem C10_witness :
    ("dup" : String) ≠ "" ∧
    2 ≤ (chosenAttrNodes cxDoc10w).countP (fun a => getAttr a "Name" = some "dup") ∧
    (∃ r, parseAssertion pd0 0 cxDoc10w = .ok r ∧
      lookupAL r.attributes "dup" = some ["second"]) := by
  refine ⟨by decide, by decide, _, rfl, ?_⟩
  exact ((C10_amended_thm pd0 0 cxDoc10w "dup" (by decide) (by decide) rfl).1).trans rfl

end SamlSP
